import Mathlib

/-!
Verification development for the Telegram-Assistant media pipeline.

This file gives a shallow embedding, in Lean 4, of the media-handling code in
`src/handlers/telegram_handler.py` and `src/handlers/event_handler.py`:

* `sanitize_filename`  embeds `TelegramHandler._sanitize_filename`;
* `extract_title`      embeds `TelegramHandler._extract_title` (the Python
  regex search for the pattern with the CJK corner brackets is embedded as the
  explicit scan `findBracketTag`);
* `get_media_type_and_dir` embeds `TelegramHandler._get_media_type_and_dir`;
* `group_media_type`   embeds the media-type decision inside
  `EventHandler._process_media_group_with_delay`;
* `process_media_target_path` embeds the destination-path computation of
  `TelegramHandler.process_media` (lines 155-163);
* `process_media_group` embeds `TelegramHandler.process_media_group`, with
  `shutil.move` abstracted as a boolean oracle whose `false` answer models the
  raised exception;
* `handle_media_group` / `process_media_group_with_delay` embed the group
  buffering and debounce flush of `EventHandler`, as explicit state passing
  over the pair of dictionaries `media_groups` / `group_tasks`.

Strings are modelled as `List Char` (Python `str` indexing and slicing are by
code point, exactly matching `List Char`).  Wall-clock timestamps produced by
`datetime.now().strftime(..)` are passed in as an explicit argument.
-/

/-- Characters removed by `_sanitize_filename`: the Python character class
consisting of angle brackets, colon, double quote, slash, backslash, pipe,
question mark, asterisk and the control range x00-x1f. -/
def isIllegalChar (c : Char) : Bool :=
  c == '<' || c == '>' || c == ':' || c == '"' || c == '/' || c == '\\' ||
  c == '|' || c == '?' || c == '*' || decide (c.toNat ≤ 0x1f)

/-- Characters trimmed by `filename.strip(". ")` in `_sanitize_filename`. -/
def stripChars (c : Char) : Bool :=
  c == '.' || c == ' '

/-- Right strip: remove the longest suffix whose characters satisfy `p`. -/
def rstripBy (p : Char → Bool) (l : List Char) : List Char :=
  (l.reverse.dropWhile p).reverse

/-- Python `s.strip(". ")`: trim leading and trailing dots and spaces. -/
def pyStripDotsSpaces (l : List Char) : List Char :=
  (rstripBy stripChars l).dropWhile stripChars

/-- Embeds `TelegramHandler._sanitize_filename`: delete illegal characters,
trim leading and trailing dots and spaces, then truncate to 200 characters. -/
def sanitize_filename (l : List Char) : List Char :=
  let f := l.filter (fun c => !(isIllegalChar c))
  let s := pyStripDotsSpaces f
  if s.length > 200 then s.take 200 else s

/-- Characters stripped by Python `str.strip()` with no arguments (the ASCII
whitespace set used by the captions this code handles). -/
def isPyWhitespace (c : Char) : Bool :=
  c == ' ' || c == '\t' || c == '\n' || c == '\r' || c == '\x0b' || c == '\x0c'

/-- Right strip for Python whitespace. -/
def rstripWs (l : List Char) : List Char :=
  rstripBy isPyWhitespace l

/-- Python `s.strip()`: trim whitespace on both ends. -/
def pyStripWs (l : List Char) : List Char :=
  (rstripWs l).dropWhile isPyWhitespace

/-- The fallback title returned by `_extract_title` for missing or unusable
captions (the literal string in the source). -/
def placeholderTitle : List Char :=
  String.toList "无标题媒体组"

/-- Attempt to close a bracket tag: scan for the closing corner bracket,
failing on a newline first, exactly as the regex engine matches the
non-greedy dot-star (which cannot cross a newline) followed by the closing
bracket.  Returns the characters before the closing bracket and the
characters after it. -/
def tryClose : List Char → Option (List Char × List Char)
  | [] => none
  | c :: cs =>
    if c == '】' then some ([], cs)
    else if c == '\n' then none
    else
      match tryClose cs with
      | some (inner, rest) => some (c :: inner, rest)
      | none => none

/-- Embeds `re.search` of the corner-bracket pattern: find the leftmost
opening bracket that is closed before the next newline; return the tag body
and the text after the closing bracket (the suffix starting at the match
end). -/
def findBracketTag : List Char → Option (List Char × List Char)
  | [] => none
  | c :: cs =>
    if c == '【' then
      match tryClose cs with
      | some r => some r
      | none => findBracketTag cs
    else findBracketTag cs

/-- Embeds `TelegramHandler._extract_title`.  An empty list models both the
empty caption and a `None` caption (both are falsy in the Python guard). -/
def extract_title (message_text : List Char) : List Char :=
  if message_text.isEmpty then placeholderTitle
  else
    match findBracketTag message_text with
    | some (title_part, after) =>
      let rest_of_text := pyStripWs after
      let title :=
        if !rest_of_text.isEmpty then
          let rest_part :=
            if rest_of_text.any (fun c => c == '\n' || c == '#') then
              pyStripWs (rest_of_text.takeWhile (fun c => !(c == '\n' || c == '#')))
            else rest_of_text
          '【' :: title_part ++ '】' :: rest_part
        else
          '【' :: title_part ++ ['】']
      sanitize_filename title
    | none =>
      let first_line := pyStripWs (message_text.takeWhile (fun c => !(c == '\n')))
      let first_line := pyStripWs (first_line.takeWhile (fun c => !(c == '#')))
      let first_line := sanitize_filename first_line
      if !first_line.isEmpty then first_line else placeholderTitle

/-- The per-category destination directories.  Their concrete path strings
live in `src/constants.py`, which is outside the provided sources; no claim
depends on their values, so they are modelled as an enumeration. -/
inductive TgDir where
  | videos | audios | photos | others
  deriving DecidableEq, Repr

/-- The shape of `event.message.media` as far as `_get_media_type_and_dir`
inspects it: a document (whose `mime_type` may be falsy, modelled `none`),
an inline photo, or anything else. -/
inductive Media where
  | document (mime_type : Option (List Char))
  | photo
  | other
  deriving Repr

/-- Embeds `TelegramHandler._get_media_type_and_dir`: documents are routed by
MIME prefix (`video/`, `audio/`), everything else about a document falls to
`other`; inline photos are `photo`; any other media is `other`. -/
def get_media_type_and_dir : Media → List Char × TgDir
  | Media.document mime_type =>
    match mime_type with
    | some mt =>
      if (String.toList "video/").isPrefixOf mt then (String.toList "video", TgDir.videos)
      else if (String.toList "audio/").isPrefixOf mt then (String.toList "audio", TgDir.audios)
      else (String.toList "other", TgDir.others)
    | none => (String.toList "other", TgDir.others)
  | Media.photo => (String.toList "photo", TgDir.photos)
  | Media.other => (String.toList "other", TgDir.others)

/-- The shape of `message.media` as inspected by the media-group download
loop in `EventHandler._process_media_group_with_delay`: a `MessageMediaPhoto`,
a `MessageMediaDocument` (telethon documents always carry a `mime_type`
string), or anything else. -/
inductive GMedia where
  | gphoto
  | gdocument (mime_type : List Char)
  | gother
  deriving Repr

/-- Embeds the type decision of the media-group download loop: photos are
`photo`; documents are `video` when the MIME type starts with `video/` and
`other` otherwise (audio documents included); anything else is `other`. -/
def group_media_type : GMedia → List Char
  | GMedia.gphoto => String.toList "photo"
  | GMedia.gdocument mime_type =>
    if (String.toList "video/").isPrefixOf mime_type then String.toList "video"
    else String.toList "other"
  | GMedia.gother => String.toList "other"

/-- Python `os.path.join(a, b)` for a relative second component. -/
def pathJoin (a b : List Char) : List Char :=
  a ++ '/' :: b

/-- Fuel-driven core of Python `str.replace`: replace every non-overlapping
occurrence of `pat` by `rep`, scanning left to right.  The fuel, instantiated
with the length of the scanned string, strictly bounds the recursion (each
step consumes at least one character when `pat` is non-empty). -/
def replaceAllFuel (pat rep : List Char) : Nat → List Char → List Char
  | 0, s => s
  | _ + 1, [] => []
  | fuel + 1, c :: rest =>
    if !pat.isEmpty && pat.isPrefixOf (c :: rest) then
      rep ++ replaceAllFuel pat rep fuel ((c :: rest).drop pat.length)
    else
      c :: replaceAllFuel pat rep fuel rest

/-- Python `s.replace(pat, rep)` (for the non-empty patterns the source
uses). -/
def replaceAll (pat rep s : List Char) : List Char :=
  replaceAllFuel pat rep s.length s

/-- Does `pat` occur as a contiguous substring of the second argument
(Python `pat in s`)?  Used to state when `replaceAll` is the identity. -/
def containsSub (pat : List Char) : List Char → Bool
  | [] => pat.isEmpty
  | c :: rest => pat.isPrefixOf (c :: rest) || containsSub pat rest

/-- Embeds the destination-path computation of `TelegramHandler.process_media`
(lines 155-163): join directory and `filename + ext`, apply the two literal
`str.replace` fixups, append a `_timestamp` suffix when the path already
exists (the oracle `pathExists` models `os.path.exists`), and finally collapse
a doubled extension.  `ts` is the `datetime.now().strftime(..)` string. -/
def process_media_target_path (pathExists : List Char → Bool)
    (ts target_dir filename ext : List Char) : List Char :=
  let tp0 := pathJoin target_dir (filename ++ ext)
  let tp1 := replaceAll (String.toList ".x-flac") [] tp0
  let tp2 := replaceAll (String.toList ".mp4.m4a") (String.toList ".m4a") tp1
  let tp3 :=
    if pathExists tp2 then pathJoin target_dir (filename ++ '_' :: ts ++ ext)
    else tp2
  replaceAll (ext ++ ext) ext tp3

/-- The `'photo'` type string used by the media-group code. -/
def photoType : List Char := String.toList "photo"

/-- The `'video'` type string used by the media-group code. -/
def videoType : List Char := String.toList "video"

/-- The `'other'` type string used by the media-group code. -/
def otherType : List Char := String.toList "other"

/-- One entry of the `downloaded_files` list handed to
`TelegramHandler.process_media_group`: the temporary path, the original file
name, and the classified type string. -/
structure MediaFile where
  temp_path : List Char
  original_filename : List Char
  type : List Char
  deriving Repr

/-- The root directory for media groups (`TELEGRAM_VIDEOS_DIR`).  Its
concrete value lives in `src/constants.py`, outside the provided sources; no
claim depends on it, so it is modelled as a fixed token. -/
def TELEGRAM_VIDEOS_DIR : List Char := String.toList "TELEGRAM_VIDEOS_DIR"

/-- Last index of a dot in a list, used by the `os.path.splitext` model. -/
def lastDotIdxAux : List Char → Nat → Option Nat → Option Nat
  | [], _, acc => acc
  | c :: rest, i, acc => lastDotIdxAux rest (i + 1) (if c == '.' then some i else acc)

/-- The extension component of `os.path.splitext` for a plain base name: the
suffix from the last dot, unless every character before that dot is itself a
dot (leading dots never start an extension). -/
def splitext_ext (p : List Char) : List Char :=
  match lastDotIdxAux p 0 none with
  | none => []
  | some i => if (p.take i).any (fun c => !(c == '.')) then p.drop i else []

/-- Embeds the photo loop of `process_media_group`: photo `i` is renamed to
`fanart.jpg` when `i = 0` and to `snapshot{i}.jpg` otherwise, and moved into
the group directory.  The oracle `move` models `shutil.move`; a `false`
answer models the raised exception, which aborts the whole loop (the error
payload records the offending temporary path). -/
def movePhotos (move : List Char → List Char → Bool) (group_dir : List Char) :
    List MediaFile → Nat → Except (List Char) (List (List Char × List Char))
  | [], _ => Except.ok []
  | p :: rest, i =>
    let new_filename :=
      if i == 0 then String.toList "fanart.jpg"
      else String.toList "snapshot" ++ String.toList (Nat.repr i) ++ String.toList ".jpg"
    if move p.temp_path (pathJoin group_dir new_filename) then
      match movePhotos move group_dir rest (i + 1) with
      | Except.ok l => Except.ok ((p.original_filename, new_filename) :: l)
      | Except.error e => Except.error e
    else Except.error p.temp_path

/-- Embeds the video loop of `process_media_group`: a lone video is named
`{directory_name}{ext}`; with several videos, video `i` is named
`{directory_name}_{i+1}{ext}`; the name is sanitized before the move. -/
def moveVideos (move : List Char → List Char → Bool)
    (directory_name group_dir : List Char) (video_count : Nat) :
    List MediaFile → Nat → Except (List Char) (List (List Char × List Char))
  | [], _ => Except.ok []
  | v :: rest, i =>
    let original_ext := splitext_ext v.original_filename
    let raw :=
      if video_count == 1 then directory_name ++ original_ext
      else directory_name ++ '_' :: String.toList (Nat.repr (i + 1)) ++ original_ext
    let new_filename := sanitize_filename raw
    if move v.temp_path (pathJoin group_dir new_filename) then
      match moveVideos move directory_name group_dir video_count rest (i + 1) with
      | Except.ok l => Except.ok ((v.original_filename, new_filename) :: l)
      | Except.error e => Except.error e
    else Except.error v.temp_path

/-- Embeds the loop over remaining files of `process_media_group`: every
other file keeps its original name. -/
def moveOthers (move : List Char → List Char → Bool) (group_dir : List Char) :
    List MediaFile → Except (List Char) (List (List Char × List Char))
  | [] => Except.ok []
  | o :: rest =>
    if move o.temp_path (pathJoin group_dir o.original_filename) then
      match moveOthers move group_dir rest with
      | Except.ok l => Except.ok ((o.original_filename, o.original_filename) :: l)
      | Except.error e => Except.error e
    else Except.error o.temp_path

/-- Python `dict.get` over an insertion-ordered association list (a later
binding for the same key wins, as in a dict). -/
def dictGet (d : List (List Char × List Char)) (k : List Char) : Option (List Char) :=
  (d.reverse.find? (fun kv => kv.1 == k)).map (fun kv => kv.2)

/-- The `group_info` record built by `process_media_group` (the
`processed_at` wall-clock field is omitted: it is external time). -/
structure GroupInfo where
  group_id : Nat
  caption : List Char
  directory : List Char
  directory_name : List Char
  total_files : Nat
  photo_count : Nat
  video_count : Nat
  other_count : Nat
  photo_renames : List (List Char × List Char)
  video_names : List (List Char)
  other_names : List (List Char)
  file_list : List (List Char × List Char × List Char)
  deriving Repr

/-- Embeds `TelegramHandler.process_media_group`.  The `try` block wrapping
the whole function is modelled by the `Except` short-circuit: the first
failing `shutil.move` aborts everything and the group returns a failure. -/
def process_media_group (move : List Char → List Char → Bool) (group_id : Nat)
    (media_files : List MediaFile) (caption : List Char) :
    Except (List Char) GroupInfo :=
  let total_files := media_files.length
  let photo_count := (media_files.filter (fun f => f.type == photoType)).length
  let video_count := (media_files.filter (fun f => f.type == videoType)).length
  let other_count := total_files - photo_count - video_count
  let directory_name := extract_title caption
  let group_dir := pathJoin TELEGRAM_VIDEOS_DIR directory_name
  let photos := media_files.filter (fun f => f.type == photoType)
  let videos := media_files.filter (fun f => f.type == videoType)
  let others := media_files.filter (fun f => f.type == otherType)
  match movePhotos move group_dir photos 0 with
  | Except.error e => Except.error e
  | Except.ok photo_renames =>
    match moveVideos move directory_name group_dir video_count videos 0 with
    | Except.error e => Except.error e
    | Except.ok video_names_map =>
      match moveOthers move group_dir others with
      | Except.error e => Except.error e
      | Except.ok other_names_map =>
        Except.ok
          { group_id := group_id
            caption := caption
            directory := group_dir
            directory_name := directory_name
            total_files := total_files
            photo_count := photo_count
            video_count := video_count
            other_count := other_count
            photo_renames := photo_renames
            video_names := video_names_map.map (fun kv => kv.2)
            other_names := other_names_map.map (fun kv => kv.1)
            file_list := media_files.map (fun f =>
              (f.original_filename,
               (dictGet photo_renames f.original_filename).getD
                 ((dictGet video_names_map f.original_filename).getD
                   ((dictGet other_names_map f.original_filename).getD
                     f.original_filename)),
               f.type)) }

/-- Association-list lookup for the `media_groups` dictionary (keys are
`grouped_id` tokens, modelled as naturals; values are buffered message
tokens). -/
def assocGet : List (Nat × List Nat) → Nat → Option (List Nat)
  | [], _ => none
  | (k, v) :: rest, g => if k == g then some v else assocGet rest g

/-- Association-list update (in-place overwrite of an existing key, append of
a fresh key), matching dictionary assignment. -/
def assocSet : List (Nat × List Nat) → Nat → List Nat → List (Nat × List Nat)
  | [], g, v => [(g, v)]
  | (k, w) :: rest, g, v =>
    if k == g then (k, v) :: rest else (k, w) :: assocSet rest g v

/-- Association-list deletion (`del media_groups[gid]`). -/
def assocRemove (m : List (Nat × List Nat)) (g : Nat) : List (Nat × List Nat) :=
  m.filter (fun kv => !(kv.1 == g))

/-- The aggregator state of `EventHandler`: the `media_groups` buffer mapping
and the set of group ids holding a live debounce task (`group_tasks`; the
task object itself carries no further observable state). -/
structure AggState where
  media_groups : List (Nat × List Nat)
  group_tasks : List Nat
  deriving Repr

/-- Embeds `EventHandler._handle_media_group`: append the message to the
group buffer (a `defaultdict`, so a fresh key starts from the empty list) and
create a debounce task only when the group has none.  The returned flag
records whether a task was created by this arrival. -/
def handle_media_group (s : AggState) (gid msg : Nat) : AggState × Bool :=
  let buf := (assocGet s.media_groups gid).getD []
  let groups := assocSet s.media_groups gid (buf ++ [msg])
  if s.group_tasks.contains gid then
    ({ media_groups := groups, group_tasks := s.group_tasks }, false)
  else
    ({ media_groups := groups, group_tasks := gid :: s.group_tasks }, true)

/-- Embeds the state effect of `EventHandler._process_media_group_with_delay`
once the debounce sleep elapses: read the buffered messages (early return,
with no cleanup, when the buffer is empty — the source's unreachable guard),
hand them to processing, then delete the buffer entry and the task handle.
The processed batch is returned alongside the new state. -/
def process_media_group_with_delay (s : AggState) (gid : Nat) :
    AggState × List Nat :=
  let messages := (assocGet s.media_groups gid).getD []
  if messages.isEmpty then (s, [])
  else
    ({ media_groups := assocRemove s.media_groups gid,
       group_tasks := s.group_tasks.erase gid }, messages)

/-- A sequence of arrivals for one group id, all landing before the debounce
task fires (the single-threaded cooperative scheduler runs each handler
invocation atomically).  Returns the final state and how many debounce tasks
the arrivals created. -/
def arrive_all (s : AggState) (gid : Nat) : List Nat → AggState × Nat
  | [] => (s, 0)
  | m :: ms =>
    let r1 := handle_media_group s gid m
    let r2 := arrive_all r1.1 gid ms
    (r2.1, (if r1.2 then 1 else 0) + r2.2)

/-- Indexed map, used to state the per-index naming rules of the album
loops. -/
def idxMap {α β : Type} (g : Nat → α → β) : Nat → List α → List β
  | _, [] => []
  | i, a :: l => g i a :: idxMap g (i + 1) l

theorem idxMap_map_snd {α β γ : Type} (k : Nat → α → β) (n : Nat → α → γ) :
    ∀ (i : Nat) (l : List α),
      (idxMap (fun j a => (k j a, n j a)) i l).map (fun x => x.2) = idxMap n i l := by
  intro i l
  induction l generalizing i with
  | nil => rfl
  | cons a t ih => simp [idxMap, ih]

theorem mem_dropWhile_of_not {p : Char → Bool} {c : Char} (hc : p c = false) :
    ∀ {l : List Char}, c ∈ l → c ∈ l.dropWhile p := by
  intro l hl
  induction l with
  | nil => cases hl
  | cons a t ih =>
    rw [List.dropWhile_cons]
    by_cases ha : p a = true
    · simp only [ha, if_true]
      rcases List.mem_cons.mp hl with h | h
      · exact absurd (h ▸ hc) (by simp [ha])
      · exact ih h
    · simp only [ha, if_false]
      exact hl

theorem head?_dropWhile {p : Char → Bool} :
    ∀ {l : List Char} {c : Char}, (l.dropWhile p).head? = some c → p c = false := by
  intro l
  induction l with
  | nil => intro c h; cases h
  | cons a t ih =>
    intro c h
    rw [List.dropWhile_cons] at h
    by_cases ha : p a = true
    · exact ih (by simpa [ha] using h)
    · simp [ha] at h
      rw [← h]
      exact Bool.eq_false_iff.mpr ha

theorem mem_of_mem_rstripBy {p : Char → Bool} {c : Char} {l : List Char}
    (h : c ∈ rstripBy p l) : c ∈ l := by
  unfold rstripBy at h
  rw [List.mem_reverse] at h
  exact List.mem_reverse.mp ((List.dropWhile_sublist p).subset h)

theorem mem_rstripBy_of_not {p : Char → Bool} {c : Char} {l : List Char}
    (hc : p c = false) (h : c ∈ l) : c ∈ rstripBy p l := by
  unfold rstripBy
  rw [List.mem_reverse]
  exact mem_dropWhile_of_not hc (List.mem_reverse.mpr h)

theorem sanitize_filename_length_le (l : List Char) :
    (sanitize_filename l).length ≤ 200 := by
  simp only [sanitize_filename]
  split
  · simp [List.length_take]
  · omega

theorem mem_of_mem_sanitize {c : Char} {l : List Char}
    (h : c ∈ sanitize_filename l) :
    c ∈ l.filter (fun x => !(isIllegalChar x)) := by
  simp only [sanitize_filename] at h
  have h' : c ∈ pyStripDotsSpaces (l.filter (fun x => !(isIllegalChar x))) := by
    split at h
    · exact List.take_subset _ _ h
    · exact h
  unfold pyStripDotsSpaces at h'
  exact mem_of_mem_rstripBy ((List.dropWhile_sublist _).subset h')

theorem sanitize_filename_all_legal (l : List Char) :
    (sanitize_filename l).all (fun c => !(isIllegalChar c)) = true := by
  rw [List.all_eq_true]
  intro x hx
  exact (List.mem_filter.mp (mem_of_mem_sanitize hx)).2

theorem head?_take_pos {n : Nat} (hn : n ≠ 0) (l : List Char) :
    (l.take n).head? = l.head? := by
  cases l with
  | nil => simp
  | cons a t =>
    cases n with
    | zero => exact absurd rfl hn
    | succ m => simp [List.take_succ_cons]

theorem sanitize_filename_head_not_strip (l : List Char) :
    ((sanitize_filename l).head?.all (fun c => !(stripChars c))) = true := by
  simp only [sanitize_filename]
  split
  · rw [head?_take_pos (by norm_num)]
    cases hh : (pyStripDotsSpaces (l.filter (fun c => !(isIllegalChar c)))).head? with
    | none => rfl
    | some c =>
      have := head?_dropWhile (p := stripChars) (l := rstripBy stripChars (l.filter (fun c => !(isIllegalChar c)))) hh
      simp [Option.all, this]
  · cases hh : (pyStripDotsSpaces (l.filter (fun c => !(isIllegalChar c)))).head? with
    | none => rfl
    | some c =>
      have := head?_dropWhile (p := stripChars) (l := rstripBy stripChars (l.filter (fun c => !(isIllegalChar c)))) hh
      simp [Option.all, this]

theorem sanitize_filename_isEmpty_false {c : Char} {l : List Char}
    (hc : c ∈ l) (h1 : isIllegalChar c = false) (h2 : stripChars c = false) :
    (sanitize_filename l).isEmpty = false := by
  have hmemf : c ∈ l.filter (fun x => !(isIllegalChar x)) :=
    List.mem_filter.mpr ⟨hc, by simp [h1]⟩
  have hmems : c ∈ pyStripDotsSpaces (l.filter (fun x => !(isIllegalChar x))) := by
    unfold pyStripDotsSpaces
    exact mem_dropWhile_of_not h2 (mem_rstripBy_of_not h2 hmemf)
  have hne : pyStripDotsSpaces (l.filter (fun x => !(isIllegalChar x))) ≠ [] := by
    intro he
    rw [he] at hmems
    cases hmems
  simp only [sanitize_filename]
  rw [Bool.eq_false_iff]
  intro he
  rw [List.isEmpty_iff] at he
  split at he
  · rcases List.take_eq_nil_iff.mp he with h | h
    · omega
    · exact hne h
  · exact hne he

theorem findBracketTag_eq_none {s : List Char} (h : '【' ∉ s) :
    findBracketTag s = none := by
  induction s with
  | nil => rfl
  | cons c cs ih =>
    have hc : (c == '【') = false := by
      rw [beq_eq_false_iff_ne]
      intro e
      exact h (e ▸ List.mem_cons_self c cs)
    simp only [findBracketTag, hc, Bool.false_eq_true, if_false]
    exact ih (fun hm => h (List.mem_cons_of_mem _ hm))

theorem tryClose_closes {inner : List Char} (h1 : '】' ∉ inner) (h2 : '\n' ∉ inner)
    (z : List Char) : tryClose (inner ++ '】' :: z) = some (inner, z) := by
  induction inner with
  | nil => simp [tryClose]
  | cons c cs ih =>
    have hc1 : (c == '】') = false := by
      rw [beq_eq_false_iff_ne]
      intro e
      exact h1 (e ▸ List.mem_cons_self c cs)
    have hc2 : (c == '\n') = false := by
      rw [beq_eq_false_iff_ne]
      intro e
      exact h2 (e ▸ List.mem_cons_self c cs)
    have ih' := ih (fun hm => h1 (List.mem_cons_of_mem _ hm))
      (fun hm => h2 (List.mem_cons_of_mem _ hm))
    simp [tryClose, hc1, hc2, ih']

theorem findBracketTag_append {pre : List Char} (h : '【' ∉ pre) (s : List Char) :
    findBracketTag (pre ++ s) = findBracketTag s := by
  induction pre with
  | nil => rfl
  | cons c cs ih =>
    have hc : (c == '【') = false := by
      rw [beq_eq_false_iff_ne]
      intro e
      exact h (e ▸ List.mem_cons_self c cs)
    simp only [List.cons_append, findBracketTag, hc, Bool.false_eq_true, if_false]
    exact ih (fun hm => h (List.mem_cons_of_mem _ hm))

theorem findBracketTag_match {inner : List Char} (h1 : '】' ∉ inner)
    (h2 : '\n' ∉ inner) (z : List Char) :
    findBracketTag ('【' :: inner ++ '】' :: z) = some (inner, z) := by
  simp [findBracketTag, tryClose_closes h1 h2]

theorem dropWhile_eq_nil_of_all {p : Char → Bool} {l : List Char}
    (h : l.all p = true) : l.dropWhile p = [] :=
  List.dropWhile_eq_nil_iff.mpr (List.all_eq_true.mp h)

theorem mem_of_mem_pyStripWs {c : Char} {l : List Char}
    (h : c ∈ pyStripWs l) : c ∈ l := by
  unfold pyStripWs rstripWs at h
  exact mem_of_mem_rstripBy ((List.dropWhile_sublist _).subset h)

theorem pyStripWs_eq_nil_of_all {l : List Char}
    (h : l.all isPyWhitespace = true) : pyStripWs l = [] := by
  unfold pyStripWs
  apply dropWhile_eq_nil_of_all
  rw [List.all_eq_true] at h ⊢
  intro x hx
  exact h x (mem_of_mem_rstripBy hx)

theorem extract_title_isEmpty_false (cap : List Char) :
    (extract_title cap).isEmpty = false := by
  simp only [extract_title]
  by_cases hc : cap.isEmpty = true
  · rw [if_pos hc]; decide
  · rw [if_neg hc]
    cases hf : findBracketTag cap with
    | none =>
      by_cases hfl : (sanitize_filename (pyStripWs
          ((pyStripWs (cap.takeWhile (fun c => !(c == '\n')))).takeWhile
            (fun c => !(c == '#'))))).isEmpty = true
      · simp [hfl]
        decide
      · simp only [Bool.not_eq_true] at hfl
        simp [hfl]
    | some r =>
      obtain ⟨title_part, after⟩ := r
      by_cases hr : (pyStripWs after).isEmpty = true
      · simp only [hr, Bool.not_true, Bool.false_eq_true, if_false]
        exact sanitize_filename_isEmpty_false (List.mem_cons_self _ _)
          (by decide) (by decide)
      · simp only [hr, Bool.not_false, if_true]
        split
        · exact sanitize_filename_isEmpty_false (List.mem_cons_self _ _)
            (by decide) (by decide)
        · exact sanitize_filename_isEmpty_false (List.mem_cons_self _ _)
            (by decide) (by decide)

theorem extract_title_of_all_ws {s : List Char}
    (h : s.all isPyWhitespace = true) : extract_title s = placeholderTitle := by
  simp only [extract_title]
  by_cases he : s.isEmpty = true
  · rw [if_pos he]
  · rw [if_neg he]
    have hnb : '【' ∉ s := by
      intro hm
      have := List.all_eq_true.mp h _ hm
      simp [isPyWhitespace] at this
    rw [findBracketTag_eq_none hnb]
    have h1 : (s.takeWhile (fun c => !(c == '\n'))).all isPyWhitespace = true := by
      rw [List.all_eq_true]
      intro x hx
      exact List.all_eq_true.mp h x ((List.takeWhile_sublist _).subset hx)
    rw [pyStripWs_eq_nil_of_all h1]
    decide

theorem dropWhile_idem (p : Char → Bool) (l : List Char) :
    (l.dropWhile p).dropWhile p = l.dropWhile p := by
  cases h : l.dropWhile p with
  | nil => rfl
  | cons a t =>
    have ha : p a = false := head?_dropWhile (by rw [h]; rfl)
    rw [List.dropWhile_cons, if_neg (by simp [ha])]

theorem head_not_of_dropWhile_eq_self {p : Char → Bool} {c : Char}
    {t : List Char} (h : (c :: t).dropWhile p = c :: t) : p c = false := by
  by_cases hc : p c = true
  · rw [List.dropWhile_cons, if_pos hc] at h
    have hlen := congrArg List.length h
    have hle : (t.dropWhile p).length ≤ t.length :=
      (List.dropWhile_sublist p).length_le
    simp at hlen
    omega
  · exact Bool.eq_false_iff.mpr hc

theorem dropWhile_rev_dropWhile {p : Char → Bool} {Y : List Char}
    (h : Y.reverse.dropWhile p = Y.reverse) :
    (Y.dropWhile p).reverse.dropWhile p = (Y.dropWhile p).reverse := by
  cases hD : (Y.dropWhile p).reverse with
  | nil => rfl
  | cons c rest =>
    have hYrev : Y.reverse = (c :: rest) ++ (Y.takeWhile p).reverse := by
      rw [← hD, ← List.reverse_append, List.takeWhile_append_dropWhile]
    rw [hYrev] at h
    have hc : p c = false :=
      head_not_of_dropWhile_eq_self (t := rest ++ (Y.takeWhile p).reverse) h
    rw [List.dropWhile_cons, if_neg (by simp [hc])]

theorem rstripWs_pyStripWs (l : List Char) :
    rstripWs (pyStripWs l) = pyStripWs l := by
  have hY : (rstripWs l).reverse.dropWhile isPyWhitespace = (rstripWs l).reverse := by
    unfold rstripWs rstripBy
    rw [List.reverse_reverse]
    exact dropWhile_idem _ _
  have hmain := dropWhile_rev_dropWhile (p := isPyWhitespace) (Y := rstripWs l) hY
  show rstripBy isPyWhitespace ((rstripWs l).dropWhile isPyWhitespace)
      = (rstripWs l).dropWhile isPyWhitespace
  unfold rstripBy
  rw [hmain, List.reverse_reverse]

theorem dropWhile_pyStripWs (l : List Char) :
    (pyStripWs l).dropWhile isPyWhitespace = pyStripWs l :=
  dropWhile_idem _ _

theorem pyStripWs_idem (l : List Char) :
    pyStripWs (pyStripWs l) = pyStripWs l := by
  show (rstripWs (pyStripWs l)).dropWhile isPyWhitespace = pyStripWs l
  rw [rstripWs_pyStripWs]
  exact dropWhile_pyStripWs l

theorem pyStripWs_nil : pyStripWs [] = [] := rfl

/-- Claim C2 (amended): for every caption containing a bracket-delimited tag,
`extract_title` returns the bracketed tag TOGETHER WITH the text after the
closing bracket — whitespace-stripped, then cut at the first newline or hash
character, then stripped again — sanitized, as one single title string; the
tag is part of the title and no separate description is produced.  The
hypotheses only identify the first tag of the caption (no opening bracket
earlier, no closing bracket or newline inside the tag body); the text after
the tag is arbitrary. -/
theorem extract_title_bracket_amended (pre inner post : List Char)
    (hpre : '【' ∉ pre) (hin1 : '】' ∉ inner) (hin2 : '\n' ∉ inner) :
    extract_title (pre ++ ('【' :: inner ++ '】' :: post)) =
      sanitize_filename ('【' :: inner ++ '】' ::
        pyStripWs ((pyStripWs post).takeWhile
          (fun c => !(c == '\n' || c == '#')))) := by
  have hcap : pre ++ ('【' :: inner ++ '】' :: post) ≠ [] := by
    intro h
    exact List.cons_ne_nil _ _ (List.append_eq_nil.mp (List.append_eq_nil.mp h).2).1
  have hstep : findBracketTag (pre ++ ('【' :: inner ++ '】' :: post))
      = some (inner, post) := by
    rw [findBracketTag_append hpre, findBracketTag_match hin1 hin2]
  simp only [extract_title, hstep]
  rw [if_neg (by simp [List.isEmpty_iff, hcap])]
  by_cases hr : (pyStripWs post).isEmpty = true
  · have hrEq : pyStripWs post = [] := List.isEmpty_iff.mp hr
    rw [hrEq]
    simp [pyStripWs_nil]
  · have hr2 : (pyStripWs post).isEmpty = false := Bool.eq_false_iff.mpr hr
    rw [if_pos (by simp [hr2])]
    by_cases hstop : (pyStripWs post).any (fun c => c == '\n' || c == '#') = true
    · rw [if_pos hstop]
    · have hstop2 : (pyStripWs post).any (fun c => c == '\n' || c == '#') = false :=
        Bool.eq_false_iff.mpr hstop
      rw [if_neg (by simp [hstop2])]
      have hall : ∀ x ∈ pyStripWs post,
          (fun c => !(c == '\n' || c == '#')) x = true := by
        intro x hx
        cases h2 : (x == '\n' || x == '#') with
        | false => simp [h2]
        | true =>
          have hcontra : (pyStripWs post).any
              (fun c => c == '\n' || c == '#') = true :=
            List.any_eq_true.mpr ⟨x, hx, h2⟩
          rw [hstop2] at hcontra
          cases hcontra
      rw [List.takeWhile_eq_self_iff.mpr hall, pyStripWs_idem]

theorem replaceAllFuel_of_not_contains {pat rep : List Char} :
    ∀ (fuel : Nat) (s : List Char), containsSub pat s = false →
      replaceAllFuel pat rep fuel s = s := by
  intro fuel
  induction fuel with
  | zero => intro s _; rfl
  | succ n ih =>
    intro s h
    cases s with
    | nil => rfl
    | cons c rest =>
      have h' : pat.isPrefixOf (c :: rest) = false ∧ containsSub pat rest = false := by
        rw [containsSub, Bool.or_eq_false_iff] at h
        exact h
      simp [replaceAllFuel, h'.1, ih rest h'.2]

theorem replaceAll_of_not_contains {pat rep s : List Char}
    (h : containsSub pat s = false) : replaceAll pat rep s = s :=
  replaceAllFuel_of_not_contains _ _ h

theorem movePhotos_always (d : List Char) : ∀ (ps : List MediaFile) (i : Nat),
    movePhotos (fun _ _ => true) d ps i =
      Except.ok (idxMap (fun j p => (p.original_filename,
        if j == 0 then String.toList "fanart.jpg"
        else String.toList "snapshot" ++ String.toList (Nat.repr j) ++
          String.toList ".jpg")) i ps) := by
  intro ps
  induction ps with
  | nil => intro i; rfl
  | cons p rest ih => intro i; simp [movePhotos, idxMap, ih]

theorem moveVideos_always (dn d : List Char) (vc : Nat) :
    ∀ (vs : List MediaFile) (i : Nat),
      moveVideos (fun _ _ => true) dn d vc vs i =
        Except.ok (idxMap (fun j v => (v.original_filename,
          sanitize_filename (
            if vc == 1 then dn ++ splitext_ext v.original_filename
            else dn ++ '_' :: String.toList (Nat.repr (j + 1)) ++
              splitext_ext v.original_filename))) i vs) := by
  intro vs
  induction vs with
  | nil => intro i; rfl
  | cons v rest ih => intro i; simp [moveVideos, idxMap, ih]

theorem moveOthers_always (d : List Char) : ∀ (os : List MediaFile),
    moveOthers (fun _ _ => true) d os =
      Except.ok (os.map (fun o => (o.original_filename, o.original_filename))) := by
  intro os
  induction os with
  | nil => rfl
  | cons o rest ih => simp [moveOthers, ih]

theorem movePhotos_isOk (mvs : List Char → Bool) (d : List Char) :
    ∀ (ps : List MediaFile) (i : Nat),
      (movePhotos (fun s _ => mvs s) d ps i).isOk =
        ps.all (fun p => mvs p.temp_path) := by
  intro ps
  induction ps with
  | nil => intro i; rfl
  | cons p rest ih =>
    intro i
    by_cases hm : mvs p.temp_path = true
    · cases hr : movePhotos (fun s _ => mvs s) d rest (i + 1) with
      | ok l =>
        have := ih (i + 1)
        rw [hr] at this
        simp [movePhotos, hm, hr, List.all_cons, ← this, Except.isOk, Except.toBool]
      | error e =>
        have := ih (i + 1)
        rw [hr] at this
        simp [movePhotos, hm, hr, List.all_cons, ← this, Except.isOk, Except.toBool]
    · have hm' : mvs p.temp_path = false := Bool.eq_false_iff.mpr hm
      simp [movePhotos, hm', List.all_cons, Except.isOk, Except.toBool]

theorem moveVideos_isOk (mvs : List Char → Bool) (dn d : List Char) (vc : Nat) :
    ∀ (vs : List MediaFile) (i : Nat),
      (moveVideos (fun s _ => mvs s) dn d vc vs i).isOk =
        vs.all (fun v => mvs v.temp_path) := by
  intro vs
  induction vs with
  | nil => intro i; rfl
  | cons v rest ih =>
    intro i
    by_cases hm : mvs v.temp_path = true
    · cases hr : moveVideos (fun s _ => mvs s) dn d vc rest (i + 1) with
      | ok l =>
        have := ih (i + 1)
        rw [hr] at this
        simp [moveVideos, hm, hr, List.all_cons, ← this, Except.isOk, Except.toBool]
      | error e =>
        have := ih (i + 1)
        rw [hr] at this
        simp [moveVideos, hm, hr, List.all_cons, ← this, Except.isOk, Except.toBool]
    · have hm' : mvs v.temp_path = false := Bool.eq_false_iff.mpr hm
      simp [moveVideos, hm', List.all_cons, Except.isOk, Except.toBool]

theorem moveOthers_isOk (mvs : List Char → Bool) (d : List Char) :
    ∀ (os : List MediaFile),
      (moveOthers (fun s _ => mvs s) d os).isOk =
        os.all (fun o => mvs o.temp_path) := by
  intro os
  induction os with
  | nil => rfl
  | cons o rest ih =>
    by_cases hm : mvs o.temp_path = true
    · cases hr : moveOthers (fun s _ => mvs s) d rest with
      | ok l =>
        rw [hr] at ih
        simp [moveOthers, hm, hr, List.all_cons, ← ih, Except.isOk, Except.toBool]
      | error e =>
        rw [hr] at ih
        simp [moveOthers, hm, hr, List.all_cons, ← ih, Except.isOk, Except.toBool]
    · have hm' : mvs o.temp_path = false := Bool.eq_false_iff.mpr hm
      simp [moveOthers, hm', List.all_cons, Except.isOk, Except.toBool]

theorem process_media_group_isOk (mvs : List Char → Bool) (gid : Nat)
    (files : List MediaFile) (caption : List Char) :
    (process_media_group (fun s _ => mvs s) gid files caption).isOk =
      ((files.filter (fun f => f.type == photoType)).all (fun p => mvs p.temp_path) &&
       (files.filter (fun f => f.type == videoType)).all (fun p => mvs p.temp_path) &&
       (files.filter (fun f => f.type == otherType)).all (fun p => mvs p.temp_path)) := by
  simp only [process_media_group]
  have h1 := movePhotos_isOk mvs
    (pathJoin TELEGRAM_VIDEOS_DIR (extract_title caption))
    (files.filter (fun f => f.type == photoType)) 0
  cases hp : movePhotos (fun s _ => mvs s)
      (pathJoin TELEGRAM_VIDEOS_DIR (extract_title caption))
      (files.filter (fun f => f.type == photoType)) 0 with
  | error e =>
    rw [hp] at h1
    simp only [Except.isOk, Except.toBool] at h1 ⊢
    rw [← h1]
    simp
  | ok pr =>
    rw [hp] at h1
    simp only [Except.isOk, Except.toBool] at h1
    have h2 := moveVideos_isOk mvs (extract_title caption)
      (pathJoin TELEGRAM_VIDEOS_DIR (extract_title caption))
      (files.filter (fun f => f.type == videoType)).length
      (files.filter (fun f => f.type == videoType)) 0
    cases hv : moveVideos (fun s _ => mvs s) (extract_title caption)
        (pathJoin TELEGRAM_VIDEOS_DIR (extract_title caption))
        (files.filter (fun f => f.type == videoType)).length
        (files.filter (fun f => f.type == videoType)) 0 with
    | error e =>
      rw [hv] at h2
      simp only [Except.isOk, Except.toBool] at h2 ⊢
      rw [← h1, ← h2]
      simp
    | ok vr =>
      rw [hv] at h2
      simp only [Except.isOk, Except.toBool] at h2
      have h3 := moveOthers_isOk mvs
        (pathJoin TELEGRAM_VIDEOS_DIR (extract_title caption))
        (files.filter (fun f => f.type == otherType))
      cases ho : moveOthers (fun s _ => mvs s)
          (pathJoin TELEGRAM_VIDEOS_DIR (extract_title caption))
          (files.filter (fun f => f.type == otherType)) with
      | error e =>
        rw [ho] at h3
        simp only [Except.isOk, Except.toBool] at h3 ⊢
        rw [← h1, ← h2, ← h3]
        simp
      | ok og =>
        rw [ho] at h3
        simp only [Except.isOk, Except.toBool] at h3 ⊢
        rw [← h1, ← h2, ← h3]
        simp

theorem process_media_group_dirname (move : List Char → List Char → Bool)
    (gid : Nat) (files : List MediaFile) (caption : List Char) :
    (process_media_group move gid files caption).toOption.all
      (fun info => info.directory_name == extract_title caption &&
        !(info.directory_name.isEmpty)) = true := by
  simp only [process_media_group]
  cases hp : movePhotos move
      (pathJoin TELEGRAM_VIDEOS_DIR (extract_title caption))
      (files.filter (fun f => f.type == photoType)) 0 with
  | error e => rfl
  | ok pr =>
    cases hv : moveVideos move (extract_title caption)
        (pathJoin TELEGRAM_VIDEOS_DIR (extract_title caption))
        (files.filter (fun f => f.type == videoType)).length
        (files.filter (fun f => f.type == videoType)) 0 with
    | error e => rfl
    | ok vr =>
      cases ho : moveOthers move
          (pathJoin TELEGRAM_VIDEOS_DIR (extract_title caption))
          (files.filter (fun f => f.type == otherType)) with
      | error e => rfl
      | ok og =>
        simp [Except.toOption, Option.all, extract_title_isEmpty_false]

theorem assocGet_set_self (m : List (Nat × List Nat)) (g : Nat) (v : List Nat) :
    assocGet (assocSet m g v) g = some v := by
  induction m with
  | nil => simp [assocSet, assocGet]
  | cons kv rest ih =>
    obtain ⟨k, w⟩ := kv
    by_cases h : (k == g) = true
    · simp [assocSet, assocGet, h]
    · have h' : (k == g) = false := Bool.eq_false_iff.mpr h
      simp [assocSet, assocGet, h', ih]

theorem assocGet_remove (m : List (Nat × List Nat)) (g : Nat) :
    assocGet (assocRemove m g) g = none := by
  induction m with
  | nil => rfl
  | cons kv rest ih =>
    obtain ⟨k, w⟩ := kv
    by_cases h : (k == g) = true
    · simpa [assocRemove, List.filter_cons, h] using ih
    · have h' : (k == g) = false := Bool.eq_false_iff.mpr h
      simpa [assocRemove, List.filter_cons, h', assocGet] using ih

theorem arrive_all_in_task (gid : Nat) :
    ∀ (ms : List Nat) (s : AggState) (buf : List Nat),
      s.group_tasks.contains gid = true →
      assocGet s.media_groups gid = some buf →
      (arrive_all s gid ms).1.group_tasks = s.group_tasks ∧
      (arrive_all s gid ms).2 = 0 ∧
      assocGet (arrive_all s gid ms).1.media_groups gid = some (buf ++ ms) := by
  intro ms
  induction ms with
  | nil =>
    intro s buf ht hb
    exact ⟨rfl, rfl, by simpa using hb⟩
  | cons m rest ih =>
    intro s buf ht hb
    have hstep : handle_media_group s gid m =
        ({ media_groups := assocSet s.media_groups gid (buf ++ [m]),
           group_tasks := s.group_tasks }, false) := by
      have hmem : gid ∈ s.group_tasks := by simpa using ht
      simp [handle_media_group, hb, hmem]
    have ih' := ih { media_groups := assocSet s.media_groups gid (buf ++ [m]),
                     group_tasks := s.group_tasks } (buf ++ [m]) ht
      (assocGet_set_self _ _ _)
    simp only [arrive_all, hstep]
    refine ⟨ih'.1, by simpa using ih'.2.1, ?_⟩
    rw [ih'.2.2]
    simp

/-- Claim C1: for a sequence of attachments sharing one group id that all
arrive before the debounce task fires, exactly one debounce task is created
(on the first arrival, none afterwards), the flush drains exactly the full
buffered batch, the buffer entry and the task handle are gone afterwards, and
a later arrival with the same group id starts a new, independent group (a new
task with a fresh one-element buffer). -/
theorem media_group_debounce_once (gid late : Nat) (msgs : List Nat)
    (s0 : AggState) (hne : msgs ≠ [])
    (hfresh1 : assocGet s0.media_groups gid = none)
    (hfresh2 : s0.group_tasks.contains gid = false) :
    (arrive_all s0 gid msgs).2 = 1 ∧
    assocGet (arrive_all s0 gid msgs).1.media_groups gid = some msgs ∧
    (arrive_all s0 gid msgs).1.group_tasks.contains gid = true ∧
    (process_media_group_with_delay (arrive_all s0 gid msgs).1 gid).2 = msgs ∧
    assocGet (process_media_group_with_delay
      (arrive_all s0 gid msgs).1 gid).1.media_groups gid = none ∧
    (process_media_group_with_delay
      (arrive_all s0 gid msgs).1 gid).1.group_tasks.contains gid = false ∧
    (handle_media_group (process_media_group_with_delay
      (arrive_all s0 gid msgs).1 gid).1 gid late).2 = true ∧
    assocGet (handle_media_group (process_media_group_with_delay
      (arrive_all s0 gid msgs).1 gid).1 gid late).1.media_groups gid
      = some [late] := by
  cases msgs with
  | nil => exact absurd rfl hne
  | cons m rest =>
  have hnm : gid ∉ s0.group_tasks := by simpa using hfresh2
  have hstep1 : handle_media_group s0 gid m =
      ({ media_groups := assocSet s0.media_groups gid [m],
         group_tasks := gid :: s0.group_tasks }, true) := by
    simp [handle_media_group, hfresh1, hnm]
  obtain ⟨ht1, ht2, ht3⟩ := arrive_all_in_task gid rest
    (AggState.mk (assocSet s0.media_groups gid [m]) (gid :: s0.group_tasks)) [m]
    (by simp) (assocGet_set_self _ _ _)
  have hA1 : (arrive_all s0 gid (m :: rest)).1 =
      (arrive_all
        (AggState.mk (assocSet s0.media_groups gid [m]) (gid :: s0.group_tasks))
        gid rest).1 := by
    simp [arrive_all, hstep1]
  have hA2 : (arrive_all s0 gid (m :: rest)).2 = 1 := by
    simp [arrive_all, hstep1, ht2]
  have hbuf : assocGet (arrive_all s0 gid (m :: rest)).1.media_groups gid
      = some (m :: rest) := by
    rw [hA1, ht3]
    simp
  have htask : (arrive_all s0 gid (m :: rest)).1.group_tasks.contains gid = true := by
    rw [hA1, ht1]
    simp [List.contains_cons]
  have hflush : process_media_group_with_delay (arrive_all s0 gid (m :: rest)).1 gid =
      ({ media_groups := assocRemove (arrive_all s0 gid (m :: rest)).1.media_groups gid,
         group_tasks := (arrive_all s0 gid (m :: rest)).1.group_tasks.erase gid },
       m :: rest) := by
    simp [process_media_group_with_delay, hbuf]
  have htaskerase : (arrive_all s0 gid (m :: rest)).1.group_tasks.erase gid
      = s0.group_tasks := by
    rw [hA1, ht1]
    exact List.erase_cons_head gid s0.group_tasks
  have hflushbuf : assocGet (process_media_group_with_delay
      (arrive_all s0 gid (m :: rest)).1 gid).1.media_groups gid = none := by
    rw [hflush]
    exact assocGet_remove _ _
  have hflushtask : (process_media_group_with_delay
      (arrive_all s0 gid (m :: rest)).1 gid).1.group_tasks.contains gid = false := by
    rw [hflush]
    simpa [htaskerase] using hfresh2
  have hnm2 : gid ∉ (process_media_group_with_delay
      (arrive_all s0 gid (m :: rest)).1 gid).1.group_tasks := by
    simpa using hflushtask
  have hstep2 : handle_media_group (process_media_group_with_delay
      (arrive_all s0 gid (m :: rest)).1 gid).1 gid late =
      ({ media_groups := assocSet (process_media_group_with_delay
           (arrive_all s0 gid (m :: rest)).1 gid).1.media_groups gid [late],
         group_tasks := gid :: (process_media_group_with_delay
           (arrive_all s0 gid (m :: rest)).1 gid).1.group_tasks }, true) := by
    simp [handle_media_group, hnm2, hflushbuf]
  refine ⟨hA2, hbuf, htask, by rw [hflush], hflushbuf, hflushtask, ?_, ?_⟩
  · rw [hstep2]
  · rw [hstep2]
    exact assocGet_set_self _ _ _

/-- Witness for C1 at a concrete three-message group. -/
theorem media_group_debounce_once_witness :
    (arrive_all ⟨[], []⟩ 5 [10, 11, 12]).2 = 1 ∧
    assocGet (arrive_all ⟨[], []⟩ 5 [10, 11, 12]).1.media_groups 5 = some [10, 11, 12] ∧
    (arrive_all ⟨[], []⟩ 5 [10, 11, 12]).1.group_tasks.contains 5 = true ∧
    (process_media_group_with_delay (arrive_all ⟨[], []⟩ 5 [10, 11, 12]).1 5).2 = [10, 11, 12] ∧
    assocGet (process_media_group_with_delay
      (arrive_all ⟨[], []⟩ 5 [10, 11, 12]).1 5).1.media_groups 5 = none ∧
    (process_media_group_with_delay
      (arrive_all ⟨[], []⟩ 5 [10, 11, 12]).1 5).1.group_tasks.contains 5 = false ∧
    (handle_media_group (process_media_group_with_delay
      (arrive_all ⟨[], []⟩ 5 [10, 11, 12]).1 5).1 5 99).2 = true ∧
    assocGet (handle_media_group (process_media_group_with_delay
      (arrive_all ⟨[], []⟩ 5 [10, 11, 12]).1 5).1 5 99).1.media_groups 5
      = some [99] :=
  media_group_debounce_once 5 99 [10, 11, 12] ⟨[], []⟩ (by decide) rfl rfl

/-- Counterexample to claim C2 as stated: for the caption with the bracketed
tag followed by text, the extractor returns the WHOLE match including the
bracketed tag, not just the text after the closing bracket, and it returns a
single string (no separate description). -/
theorem extract_title_bracket_counterexample :
    extract_title (String.toList "【A】B") = String.toList "【A】B" ∧
    extract_title (String.toList "【A】B") ≠ String.toList "B" := by
  exact ⟨by decide, by decide⟩

/-- Witness for the amended claim C2 at the caption `x【A】 B c#tag\nz`: the
post-tag text carries leading whitespace, a hash cut and a following line,
exercising the strip-cut-strip behavior. -/
theorem extract_title_bracket_amended_witness :
    extract_title (String.toList "x" ++
        ('【' :: String.toList "A" ++ '】' :: String.toList " B c#tag\nz")) =
      sanitize_filename ('【' :: String.toList "A" ++ '】' ::
        pyStripWs ((pyStripWs (String.toList " B c#tag\nz")).takeWhile
          (fun c => !(c == '\n' || c == '#')))) :=
  extract_title_bracket_amended (String.toList "x") (String.toList "A")
    (String.toList " B c#tag\nz") (by decide) (by decide) (by decide)

set_option maxRecDepth 4000 in
/-- Counterexample to claim C8 as stated: a 150-character name passes
sanitization unshortened, so the truncation bound is not 100. -/
theorem sanitize_truncation_counterexample :
    (sanitize_filename (List.replicate 150 'a')).length = 150 ∧
    ¬((sanitize_filename (List.replicate 150 'a')).length ≤ 100) := by
  exact ⟨by decide, by decide⟩

/-- Claim C8 (amended): sanitization strips the filesystem-illegal
characters, trims leading dots and spaces (the head of the result is never a
dot or space), and truncates to a maximum length of 200 characters, so every
sanitized title has length at most 200. -/
theorem sanitize_filename_amended (l : List Char) :
    (sanitize_filename l).length ≤ 200 ∧
    (sanitize_filename l).all (fun c => !(isIllegalChar c)) = true ∧
    (sanitize_filename l).head?.all (fun c => !(stripChars c)) = true :=
  ⟨sanitize_filename_length_le l, sanitize_filename_all_legal l,
    sanitize_filename_head_not_strip l⟩

/-- Counterexample to claim C9 as stated: for the empty and the
whitespace-only caption the extractor does NOT yield an empty result leaving
fallback to the caller; it returns the non-empty placeholder title itself. -/
theorem extract_title_empty_counterexample :
    extract_title [] = placeholderTitle ∧
    extract_title (String.toList " \t ") = placeholderTitle ∧
    placeholderTitle ≠ [] := by
  exact ⟨by decide, by decide, by decide⟩

/-- Claim C9 (amended): for every empty or whitespace-only caption, title
extraction returns the fixed non-empty placeholder title itself; it never
returns an empty result, so no caller-side fallback is involved. -/
theorem extract_title_whitespace_amended (s : List Char)
    (h : s.all isPyWhitespace = true) :
    extract_title s = placeholderTitle ∧ placeholderTitle ≠ [] :=
  ⟨extract_title_of_all_ws h, by decide⟩

/-- Witness for the amended claim C9 at a whitespace-only caption. -/
theorem extract_title_whitespace_amended_witness :
    extract_title (String.toList "  ") = placeholderTitle ∧
    placeholderTitle ≠ [] :=
  extract_title_whitespace_amended (String.toList "  ") (by decide)

/-- Claim C10: for every caption (empty included), the title extraction used
for the album directory name returns a non-empty string, and every
successful `process_media_group` run names its directory by exactly that
non-empty extracted title — so an album directory name is never empty. -/
theorem album_directory_nonempty (caption : List Char) :
    (extract_title caption).isEmpty = false ∧
    ∀ (move : List Char → List Char → Bool) (gid : Nat) (files : List MediaFile),
      (process_media_group move gid files caption).toOption.all
        (fun info => info.directory_name == extract_title caption &&
          !(info.directory_name.isEmpty)) = true :=
  ⟨extract_title_isEmpty_false caption,
    fun move gid files => process_media_group_dirname move gid files caption⟩

/-- Counterexample to claim C3 as stated: in a flushed album of three photos
with declared names, the second and third photos are renamed to
`snapshot1.jpg` and `snapshot2.jpg` — neither the declared file names nor
`fanart1.jpg`/`fanart2.jpg` are used. -/
theorem album_photo_naming_counterexample :
    (process_media_group (fun _ _ => true) 1
        [MediaFile.mk (String.toList "t1") (String.toList "a.jpg") photoType,
         MediaFile.mk (String.toList "t2") (String.toList "b.jpg") photoType,
         MediaFile.mk (String.toList "t3") (String.toList "c.jpg") photoType]
        (String.toList "t")).toOption.map (fun info => info.photo_renames)
      = some [(String.toList "a.jpg", String.toList "fanart.jpg"),
              (String.toList "b.jpg", String.toList "snapshot1.jpg"),
              (String.toList "c.jpg", String.toList "snapshot2.jpg")] ∧
    String.toList "snapshot1.jpg" ≠ String.toList "fanart1.jpg" ∧
    String.toList "snapshot1.jpg" ≠ String.toList "b.jpg" := by
  exact ⟨by decide, by decide, by decide⟩

/-- Claim C3 (amended): in a flushed album, the first photo is renamed to
`fanart.jpg` and every photo after the first is renamed to `snapshot{i}.jpg`
(`i` its zero-based position among the album photos), unconditionally — the
attachment's own declared file name is never used for photos. -/
theorem album_photo_naming_amended (gid : Nat) (files : List MediaFile)
    (caption : List Char) :
    ∃ info, process_media_group (fun _ _ => true) gid files caption
        = Except.ok info ∧
      info.photo_renames = idxMap (fun j p => (p.original_filename,
        if j == 0 then String.toList "fanart.jpg"
        else String.toList "snapshot" ++ String.toList (Nat.repr j) ++
          String.toList ".jpg"))
        0 (files.filter (fun f => f.type == photoType)) := by
  simp only [process_media_group, movePhotos_always, moveVideos_always,
    moveOthers_always]
  exact ⟨_, rfl, rfl⟩

/-- Counterexample to claim C7 as stated: an album with two videos names
them `{title}_1{ext}` and `{title}_2{ext}`, not `{title}{ext}` for both. -/
theorem album_video_naming_counterexample :
    (process_media_group (fun _ _ => true) 1
        [MediaFile.mk (String.toList "t1") (String.toList "v1.mp4") videoType,
         MediaFile.mk (String.toList "t2") (String.toList "v2.mp4") videoType]
        (String.toList "t")).toOption.map (fun info => info.video_names)
      = some [String.toList "t_1.mp4", String.toList "t_2.mp4"] ∧
    String.toList "t_1.mp4" ≠ String.toList "t.mp4" := by
  exact ⟨by decide, by decide⟩

/-- Claim C7 (amended): a lone video in an album is named
`{title}{extension}`; when the album holds several videos each is named
`{title}_{i+1}{extension}` at naming time (then sanitized) — index suffixes
are added by the naming step itself, not left to downstream collision
resolution. -/
theorem album_video_naming_amended (gid : Nat) (files : List MediaFile)
    (caption : List Char) :
    ∃ info, process_media_group (fun _ _ => true) gid files caption
        = Except.ok info ∧
      info.video_names = idxMap (fun j v =>
        sanitize_filename (
          if (files.filter (fun f => f.type == videoType)).length == 1 then
            extract_title caption ++ splitext_ext v.original_filename
          else extract_title caption ++ '_' ::
            String.toList (Nat.repr (j + 1)) ++ splitext_ext v.original_filename))
        0 (files.filter (fun f => f.type == videoType)) := by
  simp only [process_media_group, movePhotos_always, moveVideos_always,
    moveOthers_always]
  refine ⟨_, rfl, ?_⟩
  exact idxMap_map_snd _ _ 0 _

/-- Counterexample to claim C4 as stated: a video landing on an existing
`{title}.mp4` resolves to `{title}_{timestamp}.mp4`, not `{title}_1.mp4`. -/
theorem collision_resolution_counterexample :
    process_media_target_path (fun p => p == String.toList "d/t.mp4")
        (String.toList "20250101_120000") (String.toList "d")
        (String.toList "t") (String.toList ".mp4")
      = String.toList "d/t_20250101_120000.mp4" ∧
    String.toList "d/t_20250101_120000.mp4" ≠ String.toList "d/t_1.mp4" := by
  exact ⟨by decide, by decide⟩

/-- Claim C4 (amended): when the computed destination path already exists,
collision resolution appends one `_{timestamp}` suffix before the extension
(no incrementing `_1`, `_2`, … loop and no primary-image exemption); the
hypotheses rule out interference from the two literal substring fixups and
the doubled-extension collapse. -/
theorem collision_resolution_amended (pathExists : List Char → Bool)
    (ts dir fname ext : List Char)
    (h1 : containsSub (String.toList ".x-flac")
      (pathJoin dir (fname ++ ext)) = false)
    (h2 : containsSub (String.toList ".mp4.m4a")
      (pathJoin dir (fname ++ ext)) = false)
    (h3 : pathExists (pathJoin dir (fname ++ ext)) = true)
    (h4 : containsSub (ext ++ ext)
      (pathJoin dir (fname ++ '_' :: ts ++ ext)) = false) :
    process_media_target_path pathExists ts dir fname ext =
      pathJoin dir (fname ++ '_' :: ts ++ ext) := by
  simp only [process_media_target_path]
  rw [replaceAll_of_not_contains h1, replaceAll_of_not_contains h2, if_pos h3,
    replaceAll_of_not_contains h4]

/-- Witness for the amended claim C4 at a concrete colliding video path. -/
theorem collision_resolution_amended_witness :
    process_media_target_path (fun p => p == String.toList "d/t.mp4")
        (String.toList "20250101_120000") (String.toList "d")
        (String.toList "t") (String.toList ".mp4")
      = pathJoin (String.toList "d") (String.toList "t" ++ '_' ::
          String.toList "20250101_120000" ++ String.toList ".mp4") :=
  collision_resolution_amended (fun p => p == String.toList "d/t.mp4")
    (String.toList "20250101_120000") (String.toList "d") (String.toList "t")
    (String.toList ".mp4") (by decide) (by decide) (by decide) (by decide)

theorem video_audio_mime_exclusive {mt : List Char} :
    ¬((String.toList "video/").isPrefixOf mt = true ∧
      (String.toList "audio/").isPrefixOf mt = true) := by
  rintro ⟨h1, h2⟩
  cases mt with
  | nil =>
    have e : (String.toList "video/").isPrefixOf ([] : List Char) = false := by decide
    rw [e] at h1
    cases h1
  | cons c cs =>
    have e1 : String.toList "video/" = 'v' :: String.toList "ideo/" := by decide
    have e2 : String.toList "audio/" = 'a' :: String.toList "udio/" := by decide
    rw [e1] at h1
    rw [e2] at h2
    simp only [List.isPrefixOf, Bool.and_eq_true, beq_iff_eq] at h1 h2
    rw [← h1.1] at h2
    cases h2.1

/-- Counterexample to claim C5 as stated: a document whose MIME type starts
with `image/` classifies as `other`, not `photo`, in both the single-message
classifier and the media-group classifier. -/
theorem classify_image_counterexample :
    (get_media_type_and_dir
        (Media.document (some (String.toList "image/png")))).1
      = String.toList "other" ∧
    group_media_type (GMedia.gdocument (String.toList "image/png"))
      = String.toList "other" ∧
    String.toList "other" ≠ String.toList "photo" := by
  exact ⟨by decide, by decide, by decide⟩

/-- Claim C5 (amended): the single-message classifier maps a document MIME
type starting `video/` to `video` and `audio/` to `audio`, and every other
document (image MIME types and missing MIME information included) to
`other`; inline photos map to `photo`.  The media-group classifier maps only
`video/` documents to `video` and every other document — audio included —
to `other`, and photos to `photo`. -/
theorem classify_mime_amended (mt : List Char) :
    ((get_media_type_and_dir (Media.document (some mt))).1 = String.toList "video"
      ↔ (String.toList "video/").isPrefixOf mt = true) ∧
    ((get_media_type_and_dir (Media.document (some mt))).1 = String.toList "audio"
      ↔ (String.toList "audio/").isPrefixOf mt = true) ∧
    ((get_media_type_and_dir (Media.document (some mt))).1 = String.toList "other"
      ↔ ((String.toList "video/").isPrefixOf mt = false ∧
         (String.toList "audio/").isPrefixOf mt = false)) ∧
    (get_media_type_and_dir Media.photo).1 = String.toList "photo" ∧
    (get_media_type_and_dir (Media.document none)).1 = String.toList "other" ∧
    (group_media_type (GMedia.gdocument mt) = String.toList "video"
      ↔ (String.toList "video/").isPrefixOf mt = true) ∧
    (group_media_type (GMedia.gdocument mt) = String.toList "other"
      ↔ (String.toList "video/").isPrefixOf mt = false) ∧
    group_media_type GMedia.gphoto = String.toList "photo" := by
  by_cases hvP : (String.toList "video/") <+: mt
  · have haNP : ¬(String.toList "audio/") <+: mt := by
      intro ha'
      exact video_audio_mime_exclusive
        ⟨List.isPrefixOf_iff_prefix.mpr hvP, List.isPrefixOf_iff_prefix.mpr ha'⟩
    refine ⟨?_, ?_, ?_, by decide, by decide, ?_, ?_, by decide⟩ <;>
      simp [get_media_type_and_dir, group_media_type,
        List.isPrefixOf_iff_prefix, Bool.eq_false_iff, hvP, haNP] <;>
      simp_all
  · by_cases haP : (String.toList "audio/") <+: mt
    · refine ⟨?_, ?_, ?_, by decide, by decide, ?_, ?_, by decide⟩ <;>
        simp [get_media_type_and_dir, group_media_type,
          List.isPrefixOf_iff_prefix, Bool.eq_false_iff, hvP, haP] <;>
        simp_all
    · refine ⟨?_, ?_, ?_, by decide, by decide, ?_, ?_, by decide⟩ <;>
        simp [get_media_type_and_dir, group_media_type,
          List.isPrefixOf_iff_prefix, Bool.eq_false_iff, hvP, haP] <;>
        simp_all

/-- Counterexample to claim C6 as stated: in a three-photo group where only
the second member's move fails (the first and third would succeed), the whole
flush is reported as failed — the failure is not isolated to the one member
and no partial success summary is produced. -/
theorem group_flush_abort_counterexample :
    (process_media_group (fun s _ => !(s == String.toList "t2")) 1
        [MediaFile.mk (String.toList "t1") (String.toList "a.jpg") photoType,
         MediaFile.mk (String.toList "t2") (String.toList "b.jpg") photoType,
         MediaFile.mk (String.toList "t3") (String.toList "c.jpg") photoType]
        (String.toList "t")).isOk = false ∧
    (!(String.toList "t1" == String.toList "t2")) = true ∧
    (!(String.toList "t3" == String.toList "t2")) = true := by
  exact ⟨by decide, by decide, by decide⟩

/-- Claim C6 (amended): a group flush succeeds exactly when every member's
move succeeds — any single member's placement failure raises out of the loop
and makes the whole group report failure, so there is no per-member
isolation and no partial success summary. -/
theorem group_flush_abort_amended (mvs : List Char → Bool) (gid : Nat)
    (files : List MediaFile) (caption : List Char) :
    (process_media_group (fun s _ => mvs s) gid files caption).isOk = true ↔
      ∀ f ∈ files,
        (f.type == photoType || f.type == videoType || f.type == otherType)
          = true → mvs f.temp_path = true := by
  rw [process_media_group_isOk]
  constructor
  · intro h f hf htype
    rw [Bool.and_eq_true, Bool.and_eq_true] at h
    obtain ⟨⟨hp, hv⟩, ho⟩ := h
    rw [Bool.or_eq_true, Bool.or_eq_true] at htype
    rcases htype with (htp | htvv) | hto
    · exact List.all_eq_true.mp hp f (List.mem_filter.mpr ⟨hf, htp⟩)
    · exact List.all_eq_true.mp hv f (List.mem_filter.mpr ⟨hf, htvv⟩)
    · exact List.all_eq_true.mp ho f (List.mem_filter.mpr ⟨hf, hto⟩)
  · intro h
    rw [Bool.and_eq_true, Bool.and_eq_true]
    refine ⟨⟨?_, ?_⟩, ?_⟩ <;>
      (rw [List.all_eq_true]
       intro p hp
       obtain ⟨hmem, htype⟩ := List.mem_filter.mp hp
       exact h p hmem (by simp [htype]))

/-- Witness for the amended claim C6 at a one-photo group with an
always-succeeding move. -/
theorem group_flush_abort_amended_witness :
    (process_media_group (fun s _ => (fun _ : List Char => true) s) 1
        [MediaFile.mk (String.toList "t1") (String.toList "a.jpg") photoType]
        (String.toList "t")).isOk = true ↔
      ∀ f ∈ [MediaFile.mk (String.toList "t1") (String.toList "a.jpg") photoType],
        (f.type == photoType || f.type == videoType || f.type == otherType)
          = true → (fun _ : List Char => true) f.temp_path = true :=
  group_flush_abort_amended (fun _ => true) 1
    [MediaFile.mk (String.toList "t1") (String.toList "a.jpg") photoType]
    (String.toList "t")
